import Mathlib

/-!
Verification of the imagediff tool (imagediff.go) against its specification.

Shallow embedding conventions:
* An image is modelled through its Go side view: at every coordinate, the
  four 16-bit channel samples that img.At(x, y).RGBA() returns, as naturals.
  Coordinates are integers, as Go ints.
* float64 arithmetic is modelled exactly over the rationals.  math.Sqrt has
  no exact rational counterpart, so calculateImageStats takes the square-root
  function as an explicit parameter sqrtF; theorems either hold for every
  such function or assume only sqrtF 0 = 0 (which float sqrt satisfies).
* Go's float64-to-uint8 conversion truncates toward zero for values in range;
  outside the range [0, 256) the Go result is implementation-defined.  The
  model maps a rational to the floor clamped below by 0, which agrees with Go
  on the whole in-range portion (for every q > -1, including all values
  produced under a nonnegative scale factor).
* The mutable output raster is modelled as a total function from coordinates
  to pixels that is updated pointwise.
* The goroutine fan-out of main is modelled by folding the chunk list
  sequentially; the order-independence of that fold and of the counter sums
  is itself one of the verified claims.
* The verbose parameter of computeDiffChunk only triggers logging and is
  omitted.
-/

namespace ImageDiff

/-- One pixel as seen through image.Image.At(x, y).RGBA(): four 16-bit
channel samples (alpha-premultiplied in Go, which the diff code uses as-is). -/
structure Pix16 where
  r : ℕ
  g : ℕ
  b : ℕ
  a : ℕ
deriving DecidableEq

/-- One 8-bit RGBA pixel of the output raster (color.RGBA). -/
structure Pix8 where
  r : ℕ
  g : ℕ
  b : ℕ
  a : ℕ
deriving DecidableEq

/-- image.Rectangle: the half-open rectangle [minX, maxX) x [minY, maxY). -/
structure Rectangle where
  minX : ℤ
  minY : ℤ
  maxX : ℤ
  maxY : ℤ
deriving DecidableEq

def Rectangle.dx (b : Rectangle) : ℤ := b.maxX - b.minX

def Rectangle.dy (b : Rectangle) : ℤ := b.maxY - b.minY

/-- The Chunk struct of imagediff.go. -/
structure Chunk where
  startX : ℤ
  endX : ℤ
  startY : ℤ
  endY : ℤ
deriving DecidableEq

/-- An image, as the function x y => img.At(x, y).RGBA(). -/
abbrev Image := ℤ → ℤ → Pix16

/-- The mutable output raster (image.RGBA), as a pixel function. -/
abbrev DiffImage := ℤ → ℤ → Pix8

/-- The ImageStats struct: per-channel mean and standard deviation. -/
structure ImageStats where
  meanR : ℚ
  meanG : ℚ
  meanB : ℚ
  meanA : ℚ
  stdR : ℚ
  stdG : ℚ
  stdB : ℚ
  stdA : ℚ
deriving DecidableEq

/-- The Go zero value of ImageStats (var stats1, stats2 ImageStats). -/
def zeroStats : ImageStats := ⟨0, 0, 0, 0, 0, 0, 0, 0⟩

/-- float64(v) / 257 : the 16-bit to 8-bit scaling applied to every sample. -/
def chanF (v : ℕ) : ℚ := (v : ℚ) / 257

/-- (x, y) lies inside the chunk's rectangle. -/
@[reducible] def inChunk (c : Chunk) (x y : ℤ) : Prop :=
  c.startX ≤ x ∧ x < c.endX ∧ c.startY ≤ y ∧ y < c.endY

/-- (x, y) lies inside the rectangle. -/
@[reducible] def inRect (b : Rectangle) (x y : ℤ) : Prop :=
  b.minX ≤ x ∧ x < b.maxX ∧ b.minY ≤ y ∧ y < b.maxY

/-- The integers of [lo, hi), in order. -/
def rangeInt (lo hi : ℤ) : List ℤ :=
  (List.range (hi - lo).toNat).map (fun (k : ℕ) => lo + (k : ℤ))

/-- The coordinates of a chunk in the iteration order of computeDiffChunk:
y outer, x inner (row-major). -/
def chunkCoords (c : Chunk) : List (ℤ × ℤ) :=
  (rangeInt c.startY c.endY).flatMap
    (fun y => (rangeInt c.startX c.endX).map (fun x => (x, y)))

/-- The whole bounds rectangle viewed as a single chunk. -/
def boundsChunk (b : Rectangle) : Chunk := ⟨b.minX, b.maxX, b.minY, b.maxY⟩

/-- The coordinates of an image's bounds, in the loop order of
calculateImageStats. -/
def boundsCoords (b : Rectangle) : List (ℤ × ℤ) := chunkCoords (boundsChunk b)

/-- normalizePixel of imagediff.go: z-score a sample, returning the raw
value unchanged when the standard deviation is zero. -/
def normalizePixel (value : ℚ) (mean : ℚ) (std : ℚ) : ℚ :=
  if std = 0 then value else (value - mean) / std

/-- createChunks of imagediff.go: split the bounds into a numChunksX by
numChunksY grid, the last chunk of each row/column absorbing the integer
division remainder.  The iter.Seq is modelled as the emitted list. -/
def createChunks (bounds : Rectangle) (numChunksX numChunksY : ℤ) : List Chunk :=
  let width := bounds.dx
  let height := bounds.dy
  let chunkWidth := width.tdiv numChunksX
  let chunkHeight := height.tdiv numChunksY
  (List.range numChunksY.toNat).flatMap (fun (i : ℕ) =>
    (List.range numChunksX.toNat).map (fun (j : ℕ) =>
      let startX := bounds.minX + (j : ℤ) * chunkWidth
      let startY := bounds.minY + (i : ℤ) * chunkHeight
      let endX := if (j : ℤ) = numChunksX - 1 then bounds.maxX else startX + chunkWidth
      let endY := if (i : ℤ) = numChunksY - 1 then bounds.maxY else startY + chunkHeight
      ⟨startX, endX, startY, endY⟩))

/-- The four channel differences computed per pixel by computeDiffChunk:
absolute raw differences, or absolute differences of normalized samples. -/
def channelDiffs (img1 img2 : Image) (stats1 stats2 : ImageStats)
    (normalized : Bool) (x y : ℤ) : ℚ × ℚ × ℚ × ℚ :=
  let p1 := img1 x y
  let p2 := img2 x y
  if normalized then
    (|normalizePixel (chanF p1.r) stats1.meanR stats1.stdR -
        normalizePixel (chanF p2.r) stats2.meanR stats2.stdR|,
     |normalizePixel (chanF p1.g) stats1.meanG stats1.stdG -
        normalizePixel (chanF p2.g) stats2.meanG stats2.stdG|,
     |normalizePixel (chanF p1.b) stats1.meanB stats1.stdB -
        normalizePixel (chanF p2.b) stats2.meanB stats2.stdB|,
     |normalizePixel (chanF p1.a) stats1.meanA stats1.stdA -
        normalizePixel (chanF p2.a) stats2.meanA stats2.stdA|)
  else
    (|chanF p1.r - chanF p2.r|, |chanF p1.g - chanF p2.g|,
     |chanF p1.b - chanF p2.b|, |chanF p1.a - chanF p2.a|)

/-- The three per-pixel counter increments of computeDiffChunk: count1 and
count2 test the sum of the four raw 16-bit samples, diffCount tests the sum
of the four channel differences (alpha included). -/
def countTriple (img1 img2 : Image) (stats1 stats2 : ImageStats)
    (normalized : Bool) (x y : ℤ) : ℕ × ℕ × ℕ :=
  let p1 := img1 x y
  let p2 := img2 x y
  let d := channelDiffs img1 img2 stats1 stats2 normalized x y
  (if 0 < p1.r + p1.g + p1.b + p1.a then 1 else 0,
   if 0 < p2.r + p2.g + p2.b + p2.a then 1 else 0,
   if 0 < d.1 + d.2.1 + d.2.2.1 + d.2.2.2 then 1 else 0)

/-- Go's uint8(f) conversion on the values produced here: truncation toward
zero for in-range values (floor, since they are nonnegative whenever the
scale factor is); negative values are mapped to 0 (Go leaves values outside
[0, 256) implementation-defined). -/
def toUint8 (q : ℚ) : ℕ := ⌊q⌋.toNat

/-- The switch on diffMode in computeDiffChunk, computing the output RGB
triple.  aDiff is in scope in the Go code but unused by every branch. -/
def renderPixel (rDiff gDiff bDiff aDiff : ℚ) (scaleFactor : ℚ)
    (diffMode : String) : ℕ × ℕ × ℕ :=
  if diffMode = "bw" then
    if 0 < rDiff ∨ 0 < gDiff ∨ 0 < bDiff then (255, 255, 255) else (0, 0, 0)
  else if diffMode = "gray" then
    let avgDiff := (rDiff + gDiff + bDiff) / 3
    let gray := toUint8 (min (avgDiff * scaleFactor) 255)
    (gray, gray, gray)
  else if diffMode = "color" then
    (toUint8 (min (rDiff * scaleFactor) 255),
     toUint8 (min (gDiff * scaleFactor) 255),
     toUint8 (min (bDiff * scaleFactor) 255))
  else
    (toUint8 (min (rDiff * scaleFactor) 255),
     toUint8 (min (gDiff * scaleFactor) 255),
     toUint8 (min (bDiff * scaleFactor) 255))

/-- One iteration of the pixel loop of computeDiffChunk: the three counter
increments and the pixel written to the output raster (alpha hardcoded 255). -/
def pixelStep (img1 img2 : Image) (stats1 stats2 : ImageStats)
    (normalized : Bool) (scaleFactor : ℚ) (diffMode : String)
    (x y : ℤ) : (ℕ × ℕ × ℕ) × Pix8 :=
  let d := channelDiffs img1 img2 stats1 stats2 normalized x y
  let rgb := renderPixel d.1 d.2.1 d.2.2.1 d.2.2.2 scaleFactor diffMode
  (countTriple img1 img2 stats1 stats2 normalized x y,
   ⟨rgb.1, rgb.2.1, rgb.2.2, 255⟩)

/-- The pixel loop: accumulate the counters and write each pixel. -/
def processCoords (step : ℤ → ℤ → (ℕ × ℕ × ℕ) × Pix8) :
    List (ℤ × ℤ) → (ℕ × ℕ × ℕ) → DiffImage → (ℕ × ℕ × ℕ) × DiffImage
  | [], acc, img => (acc, img)
  | p :: ps, acc, img =>
      processCoords step ps (acc + (step p.1 p.2).1)
        (fun x y => if x = p.1 ∧ y = p.2 then (step p.1 p.2).2 else img x y)

/-- computeDiffChunk of imagediff.go: process every coordinate of the chunk,
returning the counter triple and the updated raster. -/
def computeDiffChunk (img1 img2 : Image) (diffImg : DiffImage) (chunk : Chunk)
    (stats1 stats2 : ImageStats) (normalized : Bool) (scaleFactor : ℚ)
    (diffMode : String) : (ℕ × ℕ × ℕ) × DiffImage :=
  processCoords (pixelStep img1 img2 stats1 stats2 normalized scaleFactor diffMode)
    (chunkCoords chunk) (0, 0, 0) diffImg

/-- The raster produced by running computeDiffChunk over a list of chunks
(the goroutine fan-out of main, sequentialised). -/
def runChunks (img1 img2 : Image) (stats1 stats2 : ImageStats)
    (normalized : Bool) (scaleFactor : ℚ) (diffMode : String)
    (chunks : List Chunk) (diffImg : DiffImage) : DiffImage :=
  chunks.foldl
    (fun im c =>
      (computeDiffChunk img1 img2 im c stats1 stats2 normalized scaleFactor diffMode).2)
    diffImg

/-- float64(bounds.Dx() * bounds.Dy()), the divisor of calculateImageStats. -/
def pixelCount (b : Rectangle) : ℚ := ((b.dx * b.dy : ℤ) : ℚ)

/-- Pass 1 of calculateImageStats for one channel selector: the mean of the
scaled samples over the bounds. -/
def chanMean (f : Pix16 → ℕ) (img : Image) (b : Rectangle) : ℚ :=
  ((boundsCoords b).map (fun p => chanF (f (img p.1 p.2)))).sum / pixelCount b

/-- Pass 2 of calculateImageStats for one channel selector: the sum of
squared deviations from the channel mean. -/
def chanSS (f : Pix16 → ℕ) (img : Image) (b : Rectangle) : ℚ :=
  ((boundsCoords b).map (fun p =>
    (chanF (f (img p.1 p.2)) - chanMean f img b) *
      (chanF (f (img p.1 p.2)) - chanMean f img b))).sum

/-- calculateImageStats of imagediff.go, with math.Sqrt abstracted as the
parameter sqrtF (the float square root cannot be embedded exactly; every
theorem either holds for all sqrtF or assumes only sqrtF 0 = 0). -/
def calculateImageStats (sqrtF : ℚ → ℚ) (img : Image) (b : Rectangle) : ImageStats :=
  { meanR := chanMean (fun p => p.r) img b
    meanG := chanMean (fun p => p.g) img b
    meanB := chanMean (fun p => p.b) img b
    meanA := chanMean (fun p => p.a) img b
    stdR := sqrtF (chanSS (fun p => p.r) img b / pixelCount b)
    stdG := sqrtF (chanSS (fun p => p.g) img b / pixelCount b)
    stdB := sqrtF (chanSS (fun p => p.b) img b / pixelCount b)
    stdA := sqrtF (chanSS (fun p => p.a) img b / pixelCount b) }

/-- The population variance of one channel, written as the spec words it:
sum of squared deviations divided by the pixel count. -/
def specPopulationVar (f : Pix16 → ℕ) (img : Image) (b : Rectangle) : ℚ :=
  chanSS f img b / pixelCount b

/-- The sample variance (divisor count - 1), which the spec says the code
does NOT use; kept for comparison. -/
def specSampleVar (f : Pix16 → ℕ) (img : Image) (b : Rectangle) : ℚ :=
  chanSS f img b / (pixelCount b - 1)

/-- color.RGBAModel conversion of a 16-bit sample: v >> 8. -/
def toPix8 (p : Pix16) : Pix8 := ⟨p.r / 256, p.g / 256, p.b / 256, p.a / 256⟩

/-- draw.Draw(dst, r, src, sp, draw.Src) on an RGBA destination: for every
destination point of r (clipped to the destination bounds), replace the
pixel by the source pixel at sp + (p - r.Min), converted to 8-bit RGBA. -/
def drawSrc (dst : DiffImage) (dstBounds : Rectangle) (r : Rectangle)
    (src : Image) (spX spY : ℤ) : DiffImage :=
  fun x y =>
    if inRect r x y ∧ inRect dstBounds x y then
      toPix8 (src (spX + (x - r.minX)) (spY + (y - r.minY)))
    else dst x y

/-- createCompositeImage of imagediff.go: allocate a zeroed raster of width
3*Dx and height Dy and draw the left image, the diff image and the right
image side by side.  Returns the composite's bounds and pixel function. -/
def createCompositeImage (img1 img2 diffImg : Image) (bounds1 : Rectangle) :
    Rectangle × DiffImage :=
  let width := bounds1.dx * 3
  let height := bounds1.dy
  let compBounds : Rectangle := ⟨0, 0, width, height⟩
  let base : DiffImage := fun _ _ => ⟨0, 0, 0, 0⟩
  let c1 := drawSrc base compBounds ⟨0, 0, bounds1.dx, bounds1.dy⟩ img1
    bounds1.minX bounds1.minY
  let c2 := drawSrc c1 compBounds ⟨bounds1.dx, 0, bounds1.dx * 2, bounds1.dy⟩ diffImg
    bounds1.minX bounds1.minY
  let c3 := drawSrc c2 compBounds ⟨bounds1.dx * 2, 0, width, bounds1.dy⟩ img2
    bounds1.minX bounds1.minY
  (compBounds, c3)

/-- The grid-size computation of main (lines 510-529): an initial grid from
the CPU count, shrunk so chunks keep a minimum edge of 32, clamped to 1.
int(math.Sqrt(float64(numCPU))) is modelled as the integer square root,
exact for every realistic CPU count. -/
def gridDims (bounds : Rectangle) (numCPU : ℤ) : ℤ × ℤ :=
  let nX0 : ℤ := (Nat.sqrt numCPU.toNat : ℕ)
  let nY0 : ℤ := numCPU.tdiv nX0
  let nY1 : ℤ := if nX0 * nY0 < numCPU then nY0 + 1 else nY0
  let nX1 : ℤ := if bounds.dx.tdiv nX0 < 32 then bounds.dx.tdiv 32 else nX0
  let nY2 : ℤ := if bounds.dy.tdiv nY1 < 32 then bounds.dy.tdiv 32 else nY1
  ((if nX1 < 1 then 1 else nX1), (if nY2 < 1 then 1 else nY2))

/-- The computation stage of main after decoding: validate the diff mode
(main exits on an unrecognized mode), check that both images share the same
bounds (main exits otherwise), then optionally compute statistics, partition
into chunks, run every chunk and aggregate the counters.  Errors model
os.Exit(1) firing before any statistics or chunk work; only a successful
run produces counters and a raster. -/
def runMain (img1 img2 : Image) (bounds1 bounds2 : Rectangle)
    (normalized : Bool) (scale normalizedScale : ℚ) (diffMode : String)
    (numCPU : ℤ) (sqrtF : ℚ → ℚ) : Except String ((ℕ × ℕ × ℕ) × DiffImage) :=
  if diffMode ≠ "bw" ∧ diffMode ≠ "gray" ∧ diffMode ≠ "color" then
    Except.error "Error: Invalid -diff-mode value"
  else if bounds1 ≠ bounds2 then
    Except.error "Error: Images must have the same dimensions"
  else
    let stats1 := if normalized then calculateImageStats sqrtF img1 bounds1 else zeroStats
    let stats2 := if normalized then calculateImageStats sqrtF img2 bounds2 else zeroStats
    let scaleFactor := if normalized then normalizedScale else scale
    let grid := gridDims bounds1 numCPU
    let chunks := createChunks bounds1 grid.1 grid.2
    let zeroRaster : DiffImage := fun _ _ => ⟨0, 0, 0, 0⟩
    Except.ok
      ((chunks.map (fun c =>
          (computeDiffChunk img1 img2 zeroRaster c stats1 stats2 normalized
            scaleFactor diffMode).1)).sum,
       runChunks img1 img2 stats1 stats2 normalized scaleFactor diffMode
         chunks zeroRaster)

/-- Whether a run produced a result (rather than exiting with an error). -/
def resultIsOk (e : Except String ((ℕ × ℕ × ℕ) × DiffImage)) : Bool :=
  match e with
  | Except.ok _ => true
  | Except.error _ => false

/-- The RGBA() view of a constant 8-bit color: each 16-bit sample is the
8-bit value times 257 (color.RGBA.RGBA()). -/
def image8 (r g b a : ℕ) : Image := fun _ _ => ⟨257 * r, 257 * g, 257 * b, 257 * a⟩

/-! ### Basic lemmas about coordinate lists and the pixel loop -/

lemma mem_rangeInt {lo hi x : ℤ} : x ∈ rangeInt lo hi ↔ lo ≤ x ∧ x < hi := by
  unfold rangeInt
  rw [List.mem_map]
  constructor
  · rintro ⟨k, hk, rfl⟩
    rw [List.mem_range] at hk
    omega
  · intro h
    refine ⟨(x - lo).toNat, ?_, ?_⟩
    · rw [List.mem_range]; omega
    · omega

lemma mem_chunkCoords {c : Chunk} {p : ℤ × ℤ} :
    p ∈ chunkCoords c ↔ inChunk c p.1 p.2 := by
  unfold chunkCoords inChunk
  simp only [List.mem_flatMap, List.mem_map, mem_rangeInt]
  constructor
  · rintro ⟨y, hy, x, hx, rfl⟩
    exact ⟨hx.1, hx.2, hy.1, hy.2⟩
  · rintro ⟨h1, h2, h3, h4⟩
    exact ⟨p.2, ⟨h3, h4⟩, p.1, ⟨h1, h2⟩, rfl⟩

lemma processCoords_fst (step : ℤ → ℤ → (ℕ × ℕ × ℕ) × Pix8)
    (ps : List (ℤ × ℤ)) (acc : ℕ × ℕ × ℕ) (img : DiffImage) :
    (processCoords step ps acc img).1 =
      acc + (ps.map (fun p => (step p.1 p.2).1)).sum := by
  induction ps generalizing acc img with
  | nil => simp [processCoords]
  | cons p ps ih =>
      rw [processCoords, ih]
      simp [add_assoc]

lemma processCoords_snd (step : ℤ → ℤ → (ℕ × ℕ × ℕ) × Pix8)
    (ps : List (ℤ × ℤ)) (acc : ℕ × ℕ × ℕ) (img : DiffImage) (x y : ℤ) :
    (processCoords step ps acc img).2 x y =
      if (x, y) ∈ ps then (step x y).2 else img x y := by
  induction ps generalizing acc img with
  | nil => simp [processCoords]
  | cons p ps ih =>
      rw [processCoords, ih]
      by_cases hmem : (x, y) ∈ ps
      · simp [hmem]
      · by_cases hp : (x, y) = p
        · have hx : x = p.1 := by rw [← hp]
          have hy : y = p.2 := by rw [← hp]
          simp [hmem, hp, ← hx, ← hy]
        · have : ¬(x = p.1 ∧ y = p.2) := by
            intro h
            exact hp (Prod.ext h.1 h.2)
          simp [hmem, hp, this]

lemma computeDiffChunk_fst (img1 img2 : Image) (diffImg : DiffImage)
    (c : Chunk) (s1 s2 : ImageStats) (n : Bool) (sf : ℚ) (dm : String) :
    (computeDiffChunk img1 img2 diffImg c s1 s2 n sf dm).1 =
      ((chunkCoords c).map (fun p => countTriple img1 img2 s1 s2 n p.1 p.2)).sum := by
  rw [computeDiffChunk, processCoords_fst,
    show ((0, 0, 0) : ℕ × ℕ × ℕ) = 0 from rfl, zero_add]
  rfl

lemma computeDiffChunk_snd (img1 img2 : Image) (diffImg : DiffImage)
    (c : Chunk) (s1 s2 : ImageStats) (n : Bool) (sf : ℚ) (dm : String) (x y : ℤ) :
    (computeDiffChunk img1 img2 diffImg c s1 s2 n sf dm).2 x y =
      if inChunk c x y then (pixelStep img1 img2 s1 s2 n sf dm x y).2
      else diffImg x y := by
  rw [computeDiffChunk, processCoords_snd]
  by_cases h : inChunk c x y
  · rw [if_pos (mem_chunkCoords.mpr h), if_pos h]
  · rw [if_neg (fun hm => h (mem_chunkCoords.mp hm)), if_neg h]

lemma runChunks_apply (img1 img2 : Image) (s1 s2 : ImageStats) (n : Bool)
    (sf : ℚ) (dm : String) (chunks : List Chunk) (img0 : DiffImage) (x y : ℤ) :
    runChunks img1 img2 s1 s2 n sf dm chunks img0 x y =
      if ∃ c ∈ chunks, inChunk c x y
      then (pixelStep img1 img2 s1 s2 n sf dm x y).2
      else img0 x y := by
  induction chunks generalizing img0 with
  | nil => simp [runChunks]
  | cons c cs ih =>
      rw [runChunks, List.foldl_cons, ← runChunks, ih, computeDiffChunk_snd]
      by_cases hcs : ∃ d ∈ cs, inChunk d x y
      · rw [if_pos hcs, if_pos ⟨hcs.choose, List.mem_cons_of_mem _ hcs.choose_spec.1,
          hcs.choose_spec.2⟩]
      · rw [if_neg hcs]
        by_cases hc : inChunk c x y
        · rw [if_pos hc, if_pos ⟨c, List.mem_cons_self c cs, hc⟩]
        · rw [if_neg hc, if_neg]
          rintro ⟨d, hd, hdin⟩
          rcases List.mem_cons.mp hd with rfl | hd'
          · exact hc hdin
          · exact hcs ⟨d, hd', hdin⟩

/-! ### C2: the Normalizer -/

/-- C2: normalizePixel returns (value - mean) / std when std is not 0 and
the raw value unchanged when std is 0; in particular
normalizePixel 100 50 25 = 2, normalizePixel 100 50 0 = 100,
normalizePixel 50 50 10 = 0 and normalizePixel 100 150 (-25) = 2. -/
theorem normalizePixel_spec :
    (∀ value mean std : ℚ,
      (std ≠ 0 → normalizePixel value mean std = (value - mean) / std) ∧
      (std = 0 → normalizePixel value mean std = value)) ∧
    normalizePixel 100 50 25 = 2 ∧
    normalizePixel 100 50 0 = 100 ∧
    normalizePixel 50 50 10 = 0 ∧
    normalizePixel 100 150 (-25) = 2 := by
  refine ⟨fun value mean std => ⟨fun h => ?_, fun h => ?_⟩, ?_, ?_, ?_, ?_⟩
  · rw [normalizePixel, if_neg h]
  · rw [normalizePixel, if_pos h]
  · rw [normalizePixel, if_neg (by norm_num)]
    norm_num
  · rw [normalizePixel, if_pos rfl]
  · rw [normalizePixel, if_neg (by norm_num)]
    norm_num
  · rw [normalizePixel, if_neg (by norm_num)]
    norm_num

/-- Witness for C2 at std = 25 and std = 0. -/
theorem normalizePixel_spec_witness :
    ((25 : ℚ) ≠ 0 ∧ normalizePixel 100 50 25 = (100 - 50) / 25) ∧
    ((0 : ℚ) = 0 ∧ normalizePixel 100 50 0 = 100) :=
  ⟨⟨by norm_num, (normalizePixel_spec.1 100 50 25).1 (by norm_num)⟩,
   ⟨rfl, (normalizePixel_spec.1 100 50 0).2 rfl⟩⟩

/-! ### C5: per-chunk aggregation refines the single-chunk run -/

lemma inChunk_boundsChunk {b : Rectangle} {x y : ℤ} :
    inChunk (boundsChunk b) x y ↔ inRect b x y := Iff.rfl

/-- C5: over any exact tiling of the bounds (the concatenation of the chunk
coordinate lists is a permutation of the whole bounds' coordinate list, in
any order), summing the per-chunk counter triples of computeDiffChunk equals
the counter triple of one computeDiffChunk run over the whole bounds, and
the raster produced by running all chunks agrees on every bounds pixel with
that single run.  The embedded computation is a pure function, so repeated
runs on identical inputs are identical by construction, and the counter sum
is the associative commutative aggregation of the scheduler. -/
theorem chunk_aggregation_refines (img1 img2 : Image) (s1 s2 : ImageStats)
    (n : Bool) (sf : ℚ) (dm : String) (b : Rectangle) (img0 : DiffImage)
    (chunks : List Chunk)
    (htile : ((chunks.map chunkCoords).flatten).Perm (chunkCoords (boundsChunk b))) :
    (chunks.map (fun c =>
        (computeDiffChunk img1 img2 img0 c s1 s2 n sf dm).1)).sum =
      (computeDiffChunk img1 img2 img0 (boundsChunk b) s1 s2 n sf dm).1 ∧
    ∀ x y : ℤ, inRect b x y →
      runChunks img1 img2 s1 s2 n sf dm chunks img0 x y =
        (computeDiffChunk img1 img2 img0 (boundsChunk b) s1 s2 n sf dm).2 x y := by
  constructor
  · calc (chunks.map (fun c =>
          (computeDiffChunk img1 img2 img0 c s1 s2 n sf dm).1)).sum
        = (((chunks.map chunkCoords).map
            (List.map (fun p => countTriple img1 img2 s1 s2 n p.1 p.2))).map
              List.sum).sum := by
          simp only [computeDiffChunk_fst, List.map_map]
          rfl
      _ = (((chunks.map chunkCoords).map
            (List.map (fun p => countTriple img1 img2 s1 s2 n p.1 p.2))).flatten).sum := by
          rw [List.sum_flatten]
      _ = (((chunks.map chunkCoords).flatten).map
            (fun p => countTriple img1 img2 s1 s2 n p.1 p.2)).sum := by
          rw [List.map_flatten]
      _ = ((chunkCoords (boundsChunk b)).map
            (fun p => countTriple img1 img2 s1 s2 n p.1 p.2)).sum :=
          (htile.map _).sum_eq
      _ = (computeDiffChunk img1 img2 img0 (boundsChunk b) s1 s2 n sf dm).1 :=
          (computeDiffChunk_fst _ _ _ _ _ _ _ _ _).symm
  · intro x y h
    rw [runChunks_apply, computeDiffChunk_snd,
      if_pos (inChunk_boundsChunk.mpr h), if_pos]
    have hmem : (x, y) ∈ (chunks.map chunkCoords).flatten :=
      htile.mem_iff.mpr (mem_chunkCoords.mpr (inChunk_boundsChunk.mpr h))
    rcases List.mem_flatten.mp hmem with ⟨l, hl, hpl⟩
    rcases List.mem_map.mp hl with ⟨c, hc, rfl⟩
    exact ⟨c, hc, mem_chunkCoords.mp hpl⟩

/-- Witness for C5: a 2x1 bounds split into two 1x1 chunks. -/
theorem chunk_aggregation_refines_witness :
    ((([⟨0, 1, 0, 1⟩, ⟨1, 2, 0, 1⟩] : List Chunk).map chunkCoords).flatten).Perm
      (chunkCoords (boundsChunk ⟨0, 0, 2, 1⟩)) ∧
    (([⟨0, 1, 0, 1⟩, ⟨1, 2, 0, 1⟩] : List Chunk).map (fun c =>
        (computeDiffChunk (image8 1 2 3 4) (image8 5 6 7 8)
          (fun _ _ => ⟨0, 0, 0, 0⟩) c zeroStats zeroStats false 1 "color").1)).sum =
      (computeDiffChunk (image8 1 2 3 4) (image8 5 6 7 8)
        (fun _ _ => ⟨0, 0, 0, 0⟩) (boundsChunk ⟨0, 0, 2, 1⟩)
        zeroStats zeroStats false 1 "color").1 ∧
    ∀ x y : ℤ, inRect ⟨0, 0, 2, 1⟩ x y →
      runChunks (image8 1 2 3 4) (image8 5 6 7 8) zeroStats zeroStats false 1
          "color" [⟨0, 1, 0, 1⟩, ⟨1, 2, 0, 1⟩] (fun _ _ => ⟨0, 0, 0, 0⟩) x y =
        (computeDiffChunk (image8 1 2 3 4) (image8 5 6 7 8)
          (fun _ _ => ⟨0, 0, 0, 0⟩) (boundsChunk ⟨0, 0, 2, 1⟩)
          zeroStats zeroStats false 1 "color").2 x y := by
  have hperm : ((([⟨0, 1, 0, 1⟩, ⟨1, 2, 0, 1⟩] : List Chunk).map chunkCoords).flatten).Perm
      (chunkCoords (boundsChunk ⟨0, 0, 2, 1⟩)) := by
    rw [show (([⟨0, 1, 0, 1⟩, ⟨1, 2, 0, 1⟩] : List Chunk).map chunkCoords).flatten =
      chunkCoords (boundsChunk ⟨0, 0, 2, 1⟩) from by decide]
  exact ⟨hperm, chunk_aggregation_refines (image8 1 2 3 4) (image8 5 6 7 8)
    zeroStats zeroStats false 1 "color" ⟨0, 0, 2, 1⟩ (fun _ _ => ⟨0, 0, 0, 0⟩)
    [⟨0, 1, 0, 1⟩, ⟨1, 2, 0, 1⟩] hperm⟩

/-! ### C4: unrecognized diff modes -/

lemma renderPixel_fallback (rd gd bd ad sf : ℚ) (mode : String)
    (h1 : mode ≠ "bw") (h2 : mode ≠ "gray") :
    renderPixel rd gd bd ad sf mode = renderPixel rd gd bd ad sf "color" := by
  rw [renderPixel, renderPixel, if_neg h1, if_neg h2,
    if_neg (by decide : ¬("color" = "bw")), if_neg (by decide : ¬("color" = "gray")),
    if_pos rfl]
  by_cases h3 : mode = "color"
  · rw [if_pos h3]
  · rw [if_neg h3]

/-- C4 counterexample: an unrecognized diff-mode string IS an error in the
program: main validates the flag and exits before any processing, so the
run returns the invalid-mode error rather than falling back to color. -/
theorem unrecognized_mode_is_error :
    runMain (image8 0 0 0 0) (image8 0 0 0 0) ⟨0, 0, 1, 1⟩ ⟨0, 0, 1, 1⟩
        false 2 50 "invalid" 4 (fun q => q) =
      Except.error "Error: Invalid -diff-mode value" := by
  rw [runMain, if_pos]
  exact ⟨by decide, by decide, by decide⟩

/-- C4 amended: computeDiffChunk itself treats every diff-mode string other
than bw and gray exactly like color (counters and raster alike), but at
program level an unrecognized diff-mode is rejected by main's validation
with an error before any image is opened or processed, rather than being
silently accepted. -/
theorem diffMode_fallback :
    (∀ (img1 img2 : Image) (d : DiffImage) (c : Chunk) (s1 s2 : ImageStats)
      (n : Bool) (sf : ℚ) (mode : String), mode ≠ "bw" → mode ≠ "gray" →
      computeDiffChunk img1 img2 d c s1 s2 n sf mode =
        computeDiffChunk img1 img2 d c s1 s2 n sf "color") ∧
    (∀ (img1 img2 : Image) (b1 b2 : Rectangle) (n : Bool) (sc nsc : ℚ)
      (mode : String) (ncpu : ℤ) (sqrtF : ℚ → ℚ),
      mode ≠ "bw" → mode ≠ "gray" → mode ≠ "color" →
      runMain img1 img2 b1 b2 n sc nsc mode ncpu sqrtF =
        Except.error "Error: Invalid -diff-mode value") := by
  constructor
  · intro img1 img2 d c s1 s2 n sf mode h1 h2
    have hfun : pixelStep img1 img2 s1 s2 n sf mode =
        pixelStep img1 img2 s1 s2 n sf "color" := by
      funext x y
      rw [pixelStep, pixelStep, renderPixel_fallback _ _ _ _ _ _ h1 h2]
    rw [computeDiffChunk, computeDiffChunk, hfun]
  · intro img1 img2 b1 b2 n sc nsc mode ncpu sqrtF h1 h2 h3
    rw [runMain, if_pos ⟨h1, h2, h3⟩]

/-- Witness for C4 at the concrete mode string xyz. -/
theorem diffMode_fallback_witness :
    ("xyz" ≠ "bw" ∧ "xyz" ≠ "gray" ∧ "xyz" ≠ "color") ∧
    computeDiffChunk (image8 1 2 3 4) (image8 5 6 7 8) (fun _ _ => ⟨0, 0, 0, 0⟩)
        ⟨0, 2, 0, 2⟩ zeroStats zeroStats false 2 "xyz" =
      computeDiffChunk (image8 1 2 3 4) (image8 5 6 7 8) (fun _ _ => ⟨0, 0, 0, 0⟩)
        ⟨0, 2, 0, 2⟩ zeroStats zeroStats false 2 "color" ∧
    runMain (image8 1 2 3 4) (image8 5 6 7 8) ⟨0, 0, 2, 2⟩ ⟨0, 0, 2, 2⟩
        false 2 50 "xyz" 4 (fun q => q) =
      Except.error "Error: Invalid -diff-mode value" :=
  ⟨⟨by decide, by decide, by decide⟩,
   diffMode_fallback.1 (image8 1 2 3 4) (image8 5 6 7 8) (fun _ _ => ⟨0, 0, 0, 0⟩)
     ⟨0, 2, 0, 2⟩ zeroStats zeroStats false 2 "xyz" (by decide) (by decide),
   diffMode_fallback.2 (image8 1 2 3 4) (image8 5 6 7 8) ⟨0, 0, 2, 2⟩ ⟨0, 0, 2, 2⟩
     false 2 50 "xyz" 4 (fun q => q) (by decide) (by decide) (by decide)⟩

/-! ### C6: the alpha channel is counted but never visualized -/

/-- C6: the diffCount test uses the sum of all four channel differences,
alpha included, and the counters do not depend on the rendering mode; the
pixel written to the raster always has alpha 255; and the bw rendering
decision is a function of the R, G, B differences only (the alpha
difference parameter does not occur in the result). -/
theorem alpha_counted_not_visualized :
    (∀ (img1 img2 : Image) (d : DiffImage) (c : Chunk) (s1 s2 : ImageStats)
      (n : Bool) (sf : ℚ) (mode mode' : String),
      (computeDiffChunk img1 img2 d c s1 s2 n sf mode).1 =
        (computeDiffChunk img1 img2 d c s1 s2 n sf mode').1) ∧
    (∀ (img1 img2 : Image) (s1 s2 : ImageStats) (n : Bool) (x y : ℤ),
      (countTriple img1 img2 s1 s2 n x y).2.2 =
        if 0 < (channelDiffs img1 img2 s1 s2 n x y).1 +
            (channelDiffs img1 img2 s1 s2 n x y).2.1 +
            (channelDiffs img1 img2 s1 s2 n x y).2.2.1 +
            (channelDiffs img1 img2 s1 s2 n x y).2.2.2
        then 1 else 0) ∧
    (∀ (img1 img2 : Image) (d : DiffImage) (c : Chunk) (s1 s2 : ImageStats)
      (n : Bool) (sf : ℚ) (mode : String) (x y : ℤ), inChunk c x y →
      ((computeDiffChunk img1 img2 d c s1 s2 n sf mode).2 x y).a = 255) ∧
    (∀ rd gd bd ad sf : ℚ,
      renderPixel rd gd bd ad sf "bw" =
        if 0 < rd ∨ 0 < gd ∨ 0 < bd then (255, 255, 255) else (0, 0, 0)) := by
  refine ⟨?_, ?_, ?_, ?_⟩
  · intro img1 img2 d c s1 s2 n sf mode mode'
    rw [computeDiffChunk_fst, computeDiffChunk_fst]
  · intro img1 img2 s1 s2 n x y
    rfl
  · intro img1 img2 d c s1 s2 n sf mode x y h
    rw [computeDiffChunk_snd, if_pos h]
    rfl
  · intro rd gd bd ad sf
    rw [renderPixel, if_pos rfl]

/-- Witness for C6: two images that differ only in alpha, processed in bw
mode; the written pixel still has alpha 255. -/
theorem alpha_counted_not_visualized_witness :
    inChunk ⟨0, 1, 0, 1⟩ 0 0 ∧
    ((computeDiffChunk (image8 1 2 3 4) (image8 1 2 3 9)
        (fun _ _ => ⟨0, 0, 0, 7⟩) ⟨0, 1, 0, 1⟩ zeroStats zeroStats
        false 1 "bw").2 0 0).a = 255 :=
  ⟨by decide,
   alpha_counted_not_visualized.2.2.1 (image8 1 2 3 4) (image8 1 2 3 9)
     (fun _ _ => ⟨0, 0, 0, 7⟩) ⟨0, 1, 0, 1⟩ zeroStats zeroStats
     false 1 "bw" 0 0 (by decide)⟩

/-! ### C3: fail-fast validation -/

/-- C3 counterexample: zero-area bounds are NOT rejected.  Two decoded
images with equal zero-area bounds pass the dimension check (the only
bounds check main performs) and the run proceeds to produce output. -/
theorem zero_area_not_checked :
    (⟨0, 0, 0, 0⟩ : Rectangle).dx * (⟨0, 0, 0, 0⟩ : Rectangle).dy = 0 ∧
    resultIsOk (runMain (image8 0 0 0 0) (image8 0 0 0 0) ⟨0, 0, 0, 0⟩
      ⟨0, 0, 0, 0⟩ false 2 50 "color" 4 (fun q => q)) = true :=
  ⟨by decide, rfl⟩

/-- C3 amended: when the two decoded images have mismatched dimensions the
program fails fast — the run ends in the dimension error before any image
statistics are computed and before any chunk processing starts, producing
no output.  Zero-area bounds, however, are not checked: two images with
equal zero-area bounds pass validation and the run proceeds normally. -/
theorem dimension_mismatch_fails (img1 img2 : Image) (b1 b2 : Rectangle)
    (n : Bool) (sc nsc : ℚ) (mode : String) (ncpu : ℤ) (sqrtF : ℚ → ℚ)
    (hmode : ¬(mode ≠ "bw" ∧ mode ≠ "gray" ∧ mode ≠ "color"))
    (hneq : b1 ≠ b2) :
    runMain img1 img2 b1 b2 n sc nsc mode ncpu sqrtF =
      Except.error "Error: Images must have the same dimensions" := by
  rw [runMain, if_neg hmode, if_pos hneq]

/-- Witness for C3 on concretely mismatched 1x1 and 2x2 bounds. -/
theorem dimension_mismatch_fails_witness :
    ¬(("color" : String) ≠ "bw" ∧ ("color" : String) ≠ "gray" ∧
        ("color" : String) ≠ "color") ∧
    (⟨0, 0, 1, 1⟩ : Rectangle) ≠ ⟨0, 0, 2, 2⟩ ∧
    runMain (image8 0 0 0 0) (image8 0 0 0 0) ⟨0, 0, 1, 1⟩ ⟨0, 0, 2, 2⟩
        true 2 50 "color" 4 (fun q => q) =
      Except.error "Error: Images must have the same dimensions" :=
  ⟨by decide, by decide,
   dimension_mismatch_fails (image8 0 0 0 0) (image8 0 0 0 0) ⟨0, 0, 1, 1⟩
     ⟨0, 0, 2, 2⟩ true 2 50 "color" 4 (fun q => q) (by decide) (by decide)⟩

/-! ### C7: the concrete color-mode example -/

lemma chanF_mul257 (n : ℕ) : chanF (257 * n) = (n : ℚ) := by
  rw [chanF]
  push_cast
  rw [mul_comm]
  exact mul_div_cancel_right₀ _ (by norm_num)

lemma channelDiffs_image8 (r1 g1 b1 a1 r2 g2 b2 a2 : ℕ) (s1 s2 : ImageStats)
    (x y : ℤ) :
    channelDiffs (image8 r1 g1 b1 a1) (image8 r2 g2 b2 a2) s1 s2 false x y =
      (|(r1 : ℚ) - r2|, |(g1 : ℚ) - g2|, |(b1 : ℚ) - b2|, |(a1 : ℚ) - a2|) := by
  rw [channelDiffs]
  simp only [image8, chanF_mul257, Bool.false_eq_true, if_false]

lemma c7_step (x y : ℤ) :
    pixelStep (image8 100 150 200 255) (image8 120 170 220 255) zeroStats
      zeroStats false 1 "color" x y = ((1, 1, 1), ⟨20, 20, 20, 255⟩) := by
  have hd : channelDiffs (image8 100 150 200 255) (image8 120 170 220 255)
      zeroStats zeroStats false x y = (20, 20, 20, 0) := by
    rw [channelDiffs_image8]
    norm_num [abs]
  have hc : countTriple (image8 100 150 200 255) (image8 120 170 220 255)
      zeroStats zeroStats false x y = (1, 1, 1) := by
    rw [countTriple]
    rw [hd]
    norm_num [image8]
  rw [pixelStep, hd, hc, renderPixel]
  norm_num [toUint8]
  decide

/-- C7: with normalization disabled, color mode and scale 1, the full 2x2
chunk over left image uniformly RGBA(100, 150, 200, 255) and right image
uniformly RGBA(120, 170, 220, 255) returns counts (4, 4, 4) and writes the
pixel (20, 20, 20, 255) at every chunk coordinate. -/
theorem computeDiffChunk_color_example :
    (computeDiffChunk (image8 100 150 200 255) (image8 120 170 220 255)
        (fun _ _ => ⟨0, 0, 0, 0⟩) ⟨0, 2, 0, 2⟩ zeroStats zeroStats
        false 1 "color").1 = (4, 4, 4) ∧
    ∀ x y : ℤ, inChunk ⟨0, 2, 0, 2⟩ x y →
      (computeDiffChunk (image8 100 150 200 255) (image8 120 170 220 255)
          (fun _ _ => ⟨0, 0, 0, 0⟩) ⟨0, 2, 0, 2⟩ zeroStats zeroStats
          false 1 "color").2 x y = ⟨20, 20, 20, 255⟩ := by
  have hc : ∀ x y : ℤ, countTriple (image8 100 150 200 255)
      (image8 120 170 220 255) zeroStats zeroStats false x y = (1, 1, 1) :=
    fun x y => congrArg Prod.fst (c7_step x y)
  constructor
  · rw [computeDiffChunk_fst,
      show chunkCoords ⟨0, 2, 0, 2⟩ = [(0, 0), (1, 0), (0, 1), (1, 1)] from by decide]
    simp only [List.map_cons, List.map_nil, hc]
    decide
  · intro x y h
    rw [computeDiffChunk_snd, if_pos h]
    exact congrArg Prod.snd (c7_step x y)

/-- Witness for C7 at coordinate (0, 0). -/
theorem computeDiffChunk_color_example_witness :
    inChunk ⟨0, 2, 0, 2⟩ 0 0 ∧
    (computeDiffChunk (image8 100 150 200 255) (image8 120 170 220 255)
        (fun _ _ => ⟨0, 0, 0, 0⟩) ⟨0, 2, 0, 2⟩ zeroStats zeroStats
        false 1 "color").2 0 0 = ⟨20, 20, 20, 255⟩ :=
  ⟨by decide, computeDiffChunk_color_example.2 0 0 (by decide)⟩

/-! ### C10: rendering truncates scaled differences -/

lemma channelDiffs_nonneg (img1 img2 : Image) (s1 s2 : ImageStats) (n : Bool)
    (x y : ℤ) :
    0 ≤ (channelDiffs img1 img2 s1 s2 n x y).1 ∧
    0 ≤ (channelDiffs img1 img2 s1 s2 n x y).2.1 ∧
    0 ≤ (channelDiffs img1 img2 s1 s2 n x y).2.2.1 ∧
    0 ≤ (channelDiffs img1 img2 s1 s2 n x y).2.2.2 := by
  cases n
  · rw [channelDiffs]
    simp only [Bool.false_eq_true, if_false]
    exact ⟨abs_nonneg _, abs_nonneg _, abs_nonneg _, abs_nonneg _⟩
  · rw [channelDiffs]
    simp only [if_true]
    exact ⟨abs_nonneg _, abs_nonneg _, abs_nonneg _, abs_nonneg _⟩

lemma toUint8_small {q : ℚ} (h0 : 0 ≤ q) (h1 : q < 1) : toUint8 (min q 255) = 0 := by
  rw [toUint8, min_eq_left (le_trans h1.le (by norm_num)),
    Int.floor_eq_zero_iff.mpr ⟨h0, h1⟩]
  rfl

lemma renderPixel_color (rd gd bd ad s : ℚ) :
    renderPixel rd gd bd ad s "color" =
      (toUint8 (min (rd * s) 255), toUint8 (min (gd * s) 255),
        toUint8 (min (bd * s) 255)) := by
  rw [renderPixel, if_neg (by decide : ¬("color" = "bw")),
    if_neg (by decide : ¬("color" = "gray")), if_pos rfl]

lemma renderPixel_gray (rd gd bd ad s : ℚ) :
    renderPixel rd gd bd ad s "gray" =
      (toUint8 (min ((rd + gd + bd) / 3 * s) 255),
        toUint8 (min ((rd + gd + bd) / 3 * s) 255),
        toUint8 (min ((rd + gd + bd) / 3 * s) 255)) := by
  rw [renderPixel, if_neg (by decide : ¬("gray" = "bw")), if_pos rfl]

/-- C10: in gray and color modes every rendered channel is the floor
(integer truncation) of min(difference * scaleFactor, 255); consequently a
pixel whose four scaled channel differences all lie strictly between 0 and
1 is written as (0, 0, 0, 255) even though diffCount is incremented for it. -/
theorem render_truncation (img1 img2 : Image) (d0 : DiffImage) (c : Chunk)
    (s1 s2 : ImageStats) (n : Bool) (sf : ℚ) (mode : String) (x y : ℤ)
    (hmode : mode = "gray" ∨ mode = "color") (hin : inChunk c x y)
    (hr : 0 < (channelDiffs img1 img2 s1 s2 n x y).1 * sf ∧
      (channelDiffs img1 img2 s1 s2 n x y).1 * sf < 1)
    (hg : 0 < (channelDiffs img1 img2 s1 s2 n x y).2.1 * sf ∧
      (channelDiffs img1 img2 s1 s2 n x y).2.1 * sf < 1)
    (hb : 0 < (channelDiffs img1 img2 s1 s2 n x y).2.2.1 * sf ∧
      (channelDiffs img1 img2 s1 s2 n x y).2.2.1 * sf < 1)
    (ha : 0 < (channelDiffs img1 img2 s1 s2 n x y).2.2.2 * sf ∧
      (channelDiffs img1 img2 s1 s2 n x y).2.2.2 * sf < 1) :
    (∀ rd gd bd ad s : ℚ,
      renderPixel rd gd bd ad s "color" =
        (⌊min (rd * s) 255⌋.toNat, ⌊min (gd * s) 255⌋.toNat,
          ⌊min (bd * s) 255⌋.toNat) ∧
      renderPixel rd gd bd ad s "gray" =
        (⌊min ((rd + gd + bd) / 3 * s) 255⌋.toNat,
          ⌊min ((rd + gd + bd) / 3 * s) 255⌋.toNat,
          ⌊min ((rd + gd + bd) / 3 * s) 255⌋.toNat)) ∧
    (computeDiffChunk img1 img2 d0 c s1 s2 n sf mode).2 x y = ⟨0, 0, 0, 255⟩ ∧
    (countTriple img1 img2 s1 s2 n x y).2.2 = 1 := by
  refine ⟨fun rd gd bd ad s => ⟨?_, ?_⟩, ?_, ?_⟩
  · rw [renderPixel_color]
    rfl
  · rw [renderPixel_gray]
    rfl
  · rw [computeDiffChunk_snd, if_pos hin, pixelStep]
    rcases hmode with rfl | rfl
    · have havg : ((channelDiffs img1 img2 s1 s2 n x y).1 +
          (channelDiffs img1 img2 s1 s2 n x y).2.1 +
          (channelDiffs img1 img2 s1 s2 n x y).2.2.1) / 3 * sf =
          ((channelDiffs img1 img2 s1 s2 n x y).1 * sf +
            (channelDiffs img1 img2 s1 s2 n x y).2.1 * sf +
            (channelDiffs img1 img2 s1 s2 n x y).2.2.1 * sf) / 3 := by
        ring
      rw [renderPixel_gray,
        toUint8_small (by rw [havg]; linarith [hr.1, hg.1, hb.1])
          (by rw [havg]; linarith [hr.2, hg.2, hb.2])]
    · rw [renderPixel_color, toUint8_small hr.1.le hr.2,
        toUint8_small hg.1.le hg.2, toUint8_small hb.1.le hb.2]
  · have hnn := channelDiffs_nonneg img1 img2 s1 s2 n x y
    have hrpos : 0 < (channelDiffs img1 img2 s1 s2 n x y).1 := by
      rcases lt_or_eq_of_le hnn.1 with h | h
      · exact h
      · exfalso
        rw [← h, zero_mul] at hr
        exact lt_irrefl 0 hr.1
    have hsum : 0 < (channelDiffs img1 img2 s1 s2 n x y).1 +
        (channelDiffs img1 img2 s1 s2 n x y).2.1 +
        (channelDiffs img1 img2 s1 s2 n x y).2.2.1 +
        (channelDiffs img1 img2 s1 s2 n x y).2.2.2 := by
      linarith [hnn.2.1, hnn.2.2.1, hnn.2.2.2]
    rw [countTriple, if_pos hsum]

/-- Witness for C10: raw 16-bit samples differing by 1 give channel
differences 1/257, which scale factor 1 keeps strictly below 1. -/
theorem render_truncation_witness :
    (("color" : String) = "gray" ∨ ("color" : String) = "color") ∧
    inChunk ⟨0, 1, 0, 1⟩ 0 0 ∧
    (0 < (channelDiffs (fun _ _ => ⟨0, 0, 0, 0⟩) (fun _ _ => ⟨1, 1, 1, 1⟩)
        zeroStats zeroStats false 0 0).1 * 1 ∧
      (channelDiffs (fun _ _ => ⟨0, 0, 0, 0⟩) (fun _ _ => ⟨1, 1, 1, 1⟩)
        zeroStats zeroStats false 0 0).1 * 1 < 1) ∧
    (computeDiffChunk (fun _ _ => ⟨0, 0, 0, 0⟩) (fun _ _ => ⟨1, 1, 1, 1⟩)
        (fun _ _ => ⟨9, 9, 9, 9⟩) ⟨0, 1, 0, 1⟩ zeroStats zeroStats
        false 1 "color").2 0 0 = ⟨0, 0, 0, 255⟩ ∧
    (countTriple (fun _ _ => ⟨0, 0, 0, 0⟩) (fun _ _ => ⟨1, 1, 1, 1⟩)
        zeroStats zeroStats false 0 0).2.2 = 1 := by
  have hd : channelDiffs (fun _ _ => ⟨0, 0, 0, 0⟩) (fun _ _ => ⟨1, 1, 1, 1⟩)
      zeroStats zeroStats false 0 0 = (1/257, 1/257, 1/257, 1/257) := by
    rw [channelDiffs]
    norm_num [chanF, abs]
  have hch : 0 < (channelDiffs (fun _ _ => ⟨0, 0, 0, 0⟩) (fun _ _ => ⟨1, 1, 1, 1⟩)
      zeroStats zeroStats false 0 0).1 * 1 ∧
      (channelDiffs (fun _ _ => ⟨0, 0, 0, 0⟩) (fun _ _ => ⟨1, 1, 1, 1⟩)
        zeroStats zeroStats false 0 0).1 * 1 < 1 := by
    rw [hd]
    norm_num
  have hch2 : 0 < (channelDiffs (fun _ _ => ⟨0, 0, 0, 0⟩) (fun _ _ => ⟨1, 1, 1, 1⟩)
      zeroStats zeroStats false 0 0).2.1 * 1 ∧
      (channelDiffs (fun _ _ => ⟨0, 0, 0, 0⟩) (fun _ _ => ⟨1, 1, 1, 1⟩)
        zeroStats zeroStats false 0 0).2.1 * 1 < 1 := by
    rw [hd]
    norm_num
  have hch3 : 0 < (channelDiffs (fun _ _ => ⟨0, 0, 0, 0⟩) (fun _ _ => ⟨1, 1, 1, 1⟩)
      zeroStats zeroStats false 0 0).2.2.1 * 1 ∧
      (channelDiffs (fun _ _ => ⟨0, 0, 0, 0⟩) (fun _ _ => ⟨1, 1, 1, 1⟩)
        zeroStats zeroStats false 0 0).2.2.1 * 1 < 1 := by
    rw [hd]
    norm_num
  have hch4 : 0 < (channelDiffs (fun _ _ => ⟨0, 0, 0, 0⟩) (fun _ _ => ⟨1, 1, 1, 1⟩)
      zeroStats zeroStats false 0 0).2.2.2 * 1 ∧
      (channelDiffs (fun _ _ => ⟨0, 0, 0, 0⟩) (fun _ _ => ⟨1, 1, 1, 1⟩)
        zeroStats zeroStats false 0 0).2.2.2 * 1 < 1 := by
    rw [hd]
    norm_num
  have := render_truncation (fun _ _ => ⟨0, 0, 0, 0⟩) (fun _ _ => ⟨1, 1, 1, 1⟩)
    (fun _ _ => ⟨9, 9, 9, 9⟩) ⟨0, 1, 0, 1⟩ zeroStats zeroStats false 1 "color"
    0 0 (Or.inr rfl) (by decide) hch hch2 hch3 hch4
  exact ⟨Or.inr rfl, by decide, hch, this.2.1, this.2.2⟩

/-! ### C9: the composite image is three exact block copies -/

/-- C9: for three images sharing the bounds b1 (width W, height H), the
composite raster has bounds 3W x H and contains, left to right, an exact
block copy of the left image on columns of offset 0 to W, of the diff image
at offset W to 2W, and of the right image at offset 2W to 3W — each output
pixel is the 8-bit conversion of exactly one source pixel, with no
blending, scaling or border drawing. -/
theorem createCompositeImage_spec (img1 img2 diffImg : Image) (b1 : Rectangle) :
    (createCompositeImage img1 img2 diffImg b1).1 = ⟨0, 0, b1.dx * 3, b1.dy⟩ ∧
    ∀ x y : ℤ, 0 ≤ x → x < b1.dx → 0 ≤ y → y < b1.dy →
      (createCompositeImage img1 img2 diffImg b1).2 x y =
        toPix8 (img1 (b1.minX + x) (b1.minY + y)) ∧
      (createCompositeImage img1 img2 diffImg b1).2 (b1.dx + x) y =
        toPix8 (diffImg (b1.minX + x) (b1.minY + y)) ∧
      (createCompositeImage img1 img2 diffImg b1).2 (b1.dx * 2 + x) y =
        toPix8 (img2 (b1.minX + x) (b1.minY + y)) := by
  refine ⟨rfl, ?_⟩
  intro x y hx0 hx1 hy0 hy1
  refine ⟨?_, ?_, ?_⟩ <;>
  · simp only [createCompositeImage, drawSrc, inRect]
    split_ifs <;> first
      | omega
      | (congr 1 <;> first | rfl | omega | (congr 1 <;> omega))

/-- Witness for C9 on three 2x2 images at offset (0, 0): spec's example,
output pixels at (0,0), (2,0) and (4,0). -/
theorem createCompositeImage_spec_witness :
    ((0 : ℤ) ≤ 0 ∧ (0 : ℤ) < (⟨0, 0, 2, 2⟩ : Rectangle).dx ∧
      (0 : ℤ) ≤ 0 ∧ (0 : ℤ) < (⟨0, 0, 2, 2⟩ : Rectangle).dy) ∧
    (createCompositeImage (image8 100 0 0 255) (image8 0 100 0 255)
        (image8 0 0 100 255) ⟨0, 0, 2, 2⟩).2 0 0 =
      toPix8 (image8 100 0 0 255 0 0) ∧
    (createCompositeImage (image8 100 0 0 255) (image8 0 100 0 255)
        (image8 0 0 100 255) ⟨0, 0, 2, 2⟩).2 2 0 =
      toPix8 (image8 0 0 100 255 0 0) ∧
    (createCompositeImage (image8 100 0 0 255) (image8 0 100 0 255)
        (image8 0 0 100 255) ⟨0, 0, 2, 2⟩).2 4 0 =
      toPix8 (image8 0 100 0 255 0 0) := by
  have h := (createCompositeImage_spec (image8 100 0 0 255) (image8 0 100 0 255)
    (image8 0 0 100 255) ⟨0, 0, 2, 2⟩).2 0 0 (by decide) (by decide) (by decide)
    (by decide)
  exact ⟨⟨by decide, by decide, by decide, by decide⟩, h.1, h.2.1, h.2.2⟩

/-! ### C8: image statistics -/

lemma mem_boundsCoords {b : Rectangle} {p : ℤ × ℤ} :
    p ∈ boundsCoords b ↔ inRect b p.1 p.2 := by
  rw [boundsCoords, mem_chunkCoords, inChunk_boundsChunk]

lemma chunkCoords_length (c : Chunk) :
    (chunkCoords c).length = (c.endY - c.startY).toNat * (c.endX - c.startX).toNat := by
  simp [chunkCoords, rangeInt, List.length_flatMap, Function.comp_def,
    List.map_const', List.sum_replicate, smul_eq_mul, mul_comm]

lemma chanMean_const (f : Pix16 → ℕ) (img : Image) (b : Rectangle) (v : ℕ)
    (hx : 0 < b.dx) (hy : 0 < b.dy)
    (hconst : ∀ x y : ℤ, inRect b x y → f (img x y) = 257 * v) :
    chanMean f img b = v := by
  have hmap : (boundsCoords b).map (fun p => chanF (f (img p.1 p.2))) =
      List.replicate ((boundsCoords b).map
        (fun p => chanF (f (img p.1 p.2)))).length (v : ℚ) := by
    apply List.eq_replicate_of_mem
    intro q hq
    rcases List.mem_map.mp hq with ⟨p, hp, rfl⟩
    rw [hconst p.1 p.2 (mem_boundsCoords.mp hp), chanF_mul257]
  have hne : ((b.dx * b.dy : ℤ) : ℚ) ≠ 0 := by
    rw [Int.cast_ne_zero]
    exact (mul_pos hx hy).ne.symm
  have hcast : (((boundsCoords b).map
      (fun p => chanF (f (img p.1 p.2)))).length : ℚ) = ((b.dx * b.dy : ℤ) : ℚ) := by
    rw [List.length_map, boundsCoords, chunkCoords_length]
    simp only [boundsChunk, Rectangle.dx, Rectangle.dy]
    simp only [Rectangle.dx, Rectangle.dy] at hx hy
    have hZ : (((b.maxY - b.minY).toNat * (b.maxX - b.minX).toNat : ℕ) : ℤ) =
        (b.maxX - b.minX) * (b.maxY - b.minY) := by
      push_cast
      rw [Int.toNat_of_nonneg hy.le, Int.toNat_of_nonneg hx.le]
      ring
    exact_mod_cast hZ
  rw [chanMean, hmap, List.sum_replicate, nsmul_eq_mul, pixelCount, hcast]
  exact mul_div_cancel_left₀ _ hne

lemma chanSS_const (f : Pix16 → ℕ) (img : Image) (b : Rectangle) (v : ℕ)
    (hmean : chanMean f img b = v)
    (hconst : ∀ x y : ℤ, inRect b x y → f (img x y) = 257 * v) :
    chanSS f img b = 0 := by
  rw [chanSS]
  apply List.sum_eq_zero
  intro q hq
  rcases List.mem_map.mp hq with ⟨p, hp, rfl⟩
  rw [hconst p.1 p.2 (mem_boundsCoords.mp hp), chanF_mul257, hmean, sub_self,
    mul_zero]

/-- A concrete two-pixel image whose variance separates the population and
sample formulas. -/
def twoPixel : Image := fun x _ =>
  if x = 0 then ⟨0, 0, 0, 0⟩ else ⟨65535, 65535, 65535, 65535⟩

/-- C8: for a constant-color image with positive area, calculateImageStats
returns the color's 8-bit channel values as means and 0 as every standard
deviation (using only that the square root of 0 is 0); in general the
value handed to the square root is the population variance — the sum of
squared deviations divided by the pixel count — and on a concrete two-pixel
image the population and sample variances differ, so the divisor is the
pixel count and not count minus one. -/
theorem calculateImageStats_spec (sqrtF : ℚ → ℚ) (img : Image) (b : Rectangle)
    (cr cg cb ca : ℕ) (hsq : sqrtF 0 = 0) (hx : 0 < b.dx) (hy : 0 < b.dy)
    (hconst : ∀ x y : ℤ, inRect b x y →
      img x y = ⟨257 * cr, 257 * cg, 257 * cb, 257 * ca⟩) :
    ((calculateImageStats sqrtF img b).meanR = cr ∧
      (calculateImageStats sqrtF img b).meanG = cg ∧
      (calculateImageStats sqrtF img b).meanB = cb ∧
      (calculateImageStats sqrtF img b).meanA = ca) ∧
    ((calculateImageStats sqrtF img b).stdR = 0 ∧
      (calculateImageStats sqrtF img b).stdG = 0 ∧
      (calculateImageStats sqrtF img b).stdB = 0 ∧
      (calculateImageStats sqrtF img b).stdA = 0) ∧
    (∀ (g : ℚ → ℚ) (imgA : Image),
      (calculateImageStats g imgA b).stdR =
        g (specPopulationVar (fun p => p.r) imgA b) ∧
      (calculateImageStats g imgA b).stdG =
        g (specPopulationVar (fun p => p.g) imgA b) ∧
      (calculateImageStats g imgA b).stdB =
        g (specPopulationVar (fun p => p.b) imgA b) ∧
      (calculateImageStats g imgA b).stdA =
        g (specPopulationVar (fun p => p.a) imgA b)) ∧
    specPopulationVar (fun p => p.r) twoPixel ⟨0, 0, 2, 1⟩ ≠
      specSampleVar (fun p => p.r) twoPixel ⟨0, 0, 2, 1⟩ := by
  have hmR : chanMean (fun p => p.r) img b = cr :=
    chanMean_const _ img b cr hx hy (fun x y h => by rw [hconst x y h])
  have hmG : chanMean (fun p => p.g) img b = cg :=
    chanMean_const _ img b cg hx hy (fun x y h => by rw [hconst x y h])
  have hmB : chanMean (fun p => p.b) img b = cb :=
    chanMean_const _ img b cb hx hy (fun x y h => by rw [hconst x y h])
  have hmA : chanMean (fun p => p.a) img b = ca :=
    chanMean_const _ img b ca hx hy (fun x y h => by rw [hconst x y h])
  refine ⟨⟨hmR, hmG, hmB, hmA⟩, ⟨?_, ?_, ?_, ?_⟩, fun g imgA => ⟨rfl, rfl, rfl, rfl⟩, ?_⟩
  · show sqrtF (chanSS (fun p => p.r) img b / pixelCount b) = 0
    rw [chanSS_const _ img b cr hmR (fun x y h => by rw [hconst x y h]),
      zero_div, hsq]
  · show sqrtF (chanSS (fun p => p.g) img b / pixelCount b) = 0
    rw [chanSS_const _ img b cg hmG (fun x y h => by rw [hconst x y h]),
      zero_div, hsq]
  · show sqrtF (chanSS (fun p => p.b) img b / pixelCount b) = 0
    rw [chanSS_const _ img b cb hmB (fun x y h => by rw [hconst x y h]),
      zero_div, hsq]
  · show sqrtF (chanSS (fun p => p.a) img b / pixelCount b) = 0
    rw [chanSS_const _ img b ca hmA (fun x y h => by rw [hconst x y h]),
      zero_div, hsq]
  · have hcoords : boundsCoords ⟨0, 0, 2, 1⟩ = [(0, 0), (1, 0)] := by decide
    have hmean : chanMean (fun p => p.r) twoPixel ⟨0, 0, 2, 1⟩ = 255 / 2 := by
      rw [chanMean, hcoords, pixelCount]
      norm_num [twoPixel, chanF, Rectangle.dx, Rectangle.dy]
    have hss : chanSS (fun p => p.r) twoPixel ⟨0, 0, 2, 1⟩ = 65025 / 2 := by
      rw [chanSS, hcoords, hmean]
      norm_num [twoPixel, chanF]
    rw [specPopulationVar, specSampleVar, hss, pixelCount]
    norm_num [Rectangle.dx, Rectangle.dy]

/-- Witness for C8: the identity as sqrtF and a constant 2x2 image of 8-bit
color (10, 20, 30, 40). -/
theorem calculateImageStats_spec_witness :
    ((fun q : ℚ => q) 0 = 0 ∧ 0 < (⟨0, 0, 2, 2⟩ : Rectangle).dx ∧
      0 < (⟨0, 0, 2, 2⟩ : Rectangle).dy) ∧
    (calculateImageStats (fun q => q) (image8 10 20 30 40) ⟨0, 0, 2, 2⟩).meanR = 10 ∧
    (calculateImageStats (fun q => q) (image8 10 20 30 40) ⟨0, 0, 2, 2⟩).meanA = 40 ∧
    (calculateImageStats (fun q => q) (image8 10 20 30 40) ⟨0, 0, 2, 2⟩).stdR = 0 :=
  have h := calculateImageStats_spec (fun q => q) (image8 10 20 30 40)
    ⟨0, 0, 2, 2⟩ 10 20 30 40 rfl (by decide) (by decide) (fun x y _ => rfl)
  ⟨⟨rfl, by decide, by decide⟩, h.1.1, h.1.2.2.2, h.2.1.1⟩

/-! ### C1: the chunk partition -/

lemma countP_flatMap {γ δ : Type} (l : List γ) (g : γ → List δ) (p : δ → Bool) :
    (l.flatMap g).countP p = (l.map (fun a => (g a).countP p)).sum := by
  induction l with
  | nil => rfl
  | cons a l ih =>
      rw [List.flatMap_cons, List.countP_append, List.map_cons, List.sum_cons, ih]

lemma sum_ite_count {γ : Type} (l : List γ) (q : γ → Prop) [DecidablePred q] :
    (l.map (fun a => if q a then 1 else 0)).sum = l.countP (fun a => decide (q a)) := by
  induction l with
  | nil => rfl
  | cons a l ih =>
      rw [List.map_cons, List.sum_cons, List.countP_cons, ih]
      by_cases h : q a
      · rw [if_pos h, if_pos (by simpa using h)]
        omega
      · rw [if_neg h, if_neg (by simpa using h)]
        omega

lemma countP_split {γ : Type} (l : List γ) (A1 A2 : γ → Prop) (B : Prop)
    [DecidablePred A1] [DecidablePred A2] [Decidable B] :
    l.countP (fun a => decide (A1 a ∧ A2 a ∧ B)) =
      if B then l.countP (fun a => decide (A1 a ∧ A2 a)) else 0 := by
  by_cases hb : B
  · rw [if_pos hb]
    apply List.countP_congr
    intro a _
    simp [hb]
  · rw [if_neg hb, List.countP_eq_zero]
    intro a _
    simp [hb]

/-- Counting points of consecutive half-open intervals with monotone cut
points: each x of the covered range lies in exactly one interval. -/
lemma countP_range_cuts (f : ℕ → ℤ) (n : ℕ) (hmono : ∀ i, f i ≤ f (i + 1))
    (x : ℤ) :
    (List.range n).countP (fun j => decide (f j ≤ x ∧ x < f (j + 1))) =
      if f 0 ≤ x ∧ x < f n then 1 else 0 := by
  induction n with
  | zero =>
      simp only [List.range_zero, List.countP_nil]
      rw [if_neg (by omega)]
  | succ n ih =>
      have h0n : f 0 ≤ f n := (monotone_nat_of_le_succ hmono) (Nat.zero_le n)
      have hn1 : f n ≤ f (n + 1) := hmono n
      rw [List.range_succ, List.countP_append, ih]
      simp only [List.countP_cons, List.countP_nil, decide_eq_true_eq, Nat.zero_add]
      split_ifs <;> omega

lemma tdiv_facts (w n : ℤ) (hw : 0 < w) (hn : 1 ≤ n) :
    0 ≤ w.tdiv n ∧ n * w.tdiv n ≤ w ∧ (n ≤ w → 1 ≤ w.tdiv n) := by
  have heq : w.tdiv n = w / n := Int.tdiv_eq_ediv hw.le (by omega)
  refine ⟨Int.tdiv_nonneg hw.le (by omega), ?_, ?_⟩
  · rw [heq]
    have hmod := Int.emod_nonneg w (show n ≠ 0 by omega)
    have hdef := Int.emod_def w n
    linarith
  · intro hnw
    rw [heq, Int.le_ediv_iff_mul_le (show (0 : ℤ) < n by omega)]
    linarith

/-- One axis of createChunks: for positive extent and at least one chunk,
every point of [lo, hi) falls in exactly one of the n consecutive chunk
intervals (the last absorbing the division remainder), and points outside
fall in none. -/
lemma countP_grid (lo hi n : ℤ) (hpos : 0 < hi - lo) (hn : 1 ≤ n) (x : ℤ) :
    (List.range n.toNat).countP
      (fun (j : ℕ) => decide (lo + (j : ℤ) * ((hi - lo).tdiv n) ≤ x ∧
        x < (if (j : ℤ) = n - 1 then hi
          else lo + (j : ℤ) * ((hi - lo).tdiv n) + (hi - lo).tdiv n))) =
      if lo ≤ x ∧ x < hi then 1 else 0 := by
  obtain ⟨hcw0, hmul, -⟩ := tdiv_facts (hi - lo) n hpos hn
  set cw := (hi - lo).tdiv n with hcwdef
  set f : ℕ → ℤ := fun j => if (j : ℤ) < n then lo + (j : ℤ) * cw else hi with hf
  have hmono : ∀ i : ℕ, f i ≤ f (i + 1) := by
    intro i
    simp only [hf]
    by_cases h1 : ((i : ℤ) + 1) < n
    · rw [if_pos (by omega), if_pos (by push_cast; omega)]
      have hstep : ((i : ℤ) + 1) * cw = (i : ℤ) * cw + cw := by ring
      push_cast
      linarith
    · by_cases h2 : (i : ℤ) < n
      · rw [if_pos h2, if_neg (by push_cast; omega)]
        have hij := mul_le_mul_of_nonneg_right (show (i : ℤ) ≤ n - 1 by omega) hcw0
        have hexp : (n - 1) * cw = n * cw - cw := by ring
        linarith
      · rw [if_neg h2, if_neg (by push_cast; omega)]
  have hcong : ∀ j ∈ List.range n.toNat,
      (decide (lo + (j : ℤ) * cw ≤ x ∧
        x < (if (j : ℤ) = n - 1 then hi else lo + (j : ℤ) * cw + cw)) = true) ↔
      (decide (f j ≤ x ∧ x < f (j + 1)) = true) := by
    intro j hj
    rw [List.mem_range] at hj
    have hjn : (j : ℤ) < n := by omega
    have hfj : f j = lo + (j : ℤ) * cw := by
      simp only [hf]
      rw [if_pos hjn]
    have hfj1 : f (j + 1) =
        if (j : ℤ) = n - 1 then hi else lo + (j : ℤ) * cw + cw := by
      simp only [hf]
      by_cases he : (j : ℤ) = n - 1
      · rw [if_neg (by push_cast; omega), if_pos he]
      · rw [if_pos (by push_cast; omega), if_neg he]
        push_cast
        ring
    rw [hfj, hfj1]
  rw [List.countP_congr hcong, countP_range_cuts f n.toNat hmono x]
  have hf0 : f 0 = lo := by
    simp only [hf]
    rw [if_pos (by push_cast; omega)]
    push_cast
    ring
  have hfn : f n.toNat = hi := by
    simp only [hf]
    rw [if_neg (by omega)]
  rw [hf0, hfn]

lemma createChunks_pairwise_aux (l : List Chunk)
    (h : ∀ x y : ℤ, l.countP (fun c => decide (inChunk c x y)) ≤ 1) :
    l.Pairwise (fun c d => ∀ x y : ℤ, ¬(inChunk c x y ∧ inChunk d x y)) := by
  induction l with
  | nil => exact List.Pairwise.nil
  | cons a l ih =>
      constructor
      · rintro d hd x y ⟨hax, hdx⟩
        have h1 := h x y
        rw [List.countP_cons, if_pos (by simpa using hax)] at h1
        have h2 : 0 < l.countP (fun c => decide (inChunk c x y)) :=
          List.countP_pos_iff.mpr ⟨d, hd, by simpa using hdx⟩
        omega
      · apply ih
        intro x y
        have h1 := h x y
        rw [List.countP_cons] at h1
        exact le_trans (Nat.le_add_right _ _) h1

/-- createChunks written out with all lets expanded (definitional). -/
lemma createChunks_eq (b : Rectangle) (nX nY : ℤ) :
    createChunks b nX nY =
      (List.range nY.toNat).flatMap (fun (i : ℕ) =>
        (List.range nX.toNat).map (fun (j : ℕ) =>
          (⟨b.minX + (j : ℤ) * ((b.maxX - b.minX).tdiv nX),
            if (j : ℤ) = nX - 1 then b.maxX
              else b.minX + (j : ℤ) * ((b.maxX - b.minX).tdiv nX) +
                (b.maxX - b.minX).tdiv nX,
            b.minY + (i : ℤ) * ((b.maxY - b.minY).tdiv nY),
            if (i : ℤ) = nY - 1 then b.maxY
              else b.minY + (i : ℤ) * ((b.maxY - b.minY).tdiv nY) +
                (b.maxY - b.minY).tdiv nY⟩ : Chunk))) := rfl

/-- C1 counterexample: with positive-area bounds 1x1 and numChunksX = 2 the
chunk width underflows to 0, so a yielded chunk violates startX < endX. -/
theorem createChunks_empty_chunk_cex :
    0 < (⟨0, 0, 1, 1⟩ : Rectangle).dx ∧ 0 < (⟨0, 0, 1, 1⟩ : Rectangle).dy ∧
    (1 : ℤ) ≤ 2 ∧ (1 : ℤ) ≤ 1 ∧
    ¬(∀ c ∈ createChunks ⟨0, 0, 1, 1⟩ 2 1,
        c.startX < c.endX ∧ c.startY < c.endY) := by
  refine ⟨by decide, by decide, by decide, by decide, ?_⟩
  decide

/-- C1 amended: for bounds of positive area and any grid with
numChunksX >= 1 and numChunksY >= 1 the yielded chunks are pairwise
pixel-disjoint and tile the bounds exactly — every pixel lies in exactly
one chunk and no chunk contains a pixel outside the bounds; the further
property that every chunk satisfies startX < endX and startY < endY holds
whenever additionally numChunksX <= width and numChunksY <= height (as in
main, which caps the grid by the minimum chunk size), but fails in general
because the integer chunk width can be zero. -/
theorem createChunks_tiling (b : Rectangle) (nX nY : ℤ)
    (hx : 0 < b.dx) (hy : 0 < b.dy) (hnX : 1 ≤ nX) (hnY : 1 ≤ nY) :
    (∀ x y : ℤ,
      (createChunks b nX nY).countP (fun c => decide (inChunk c x y)) =
        if inRect b x y then 1 else 0) ∧
    (createChunks b nX nY).Pairwise
      (fun c d => ∀ x y : ℤ, ¬(inChunk c x y ∧ inChunk d x y)) ∧
    (nX ≤ b.dx → nY ≤ b.dy →
      ∀ c ∈ createChunks b nX nY, c.startX < c.endX ∧ c.startY < c.endY) := by
  have hxw : 0 < b.maxX - b.minX := by simpa [Rectangle.dx] using hx
  have hyw : 0 < b.maxY - b.minY := by simpa [Rectangle.dy] using hy
  have hcount : ∀ x y : ℤ,
      (createChunks b nX nY).countP (fun c => decide (inChunk c x y)) =
        if inRect b x y then 1 else 0 := by
    intro x y
    rw [createChunks_eq, countP_flatMap]
    simp only [List.countP_map, Function.comp_def, inChunk]
    dsimp only
    simp only [countP_split, countP_grid b.minX b.maxX nX hxw hnX x]
    by_cases hxin : b.minX ≤ x ∧ x < b.maxX
    · simp only [if_pos hxin]
      rw [sum_ite_count, countP_grid b.minY b.maxY nY hyw hnY y]
      by_cases hyin : b.minY ≤ y ∧ y < b.maxY
      · rw [if_pos hyin, if_pos (show inRect b x y from
          ⟨hxin.1, hxin.2, hyin.1, hyin.2⟩)]
      · rw [if_neg hyin, if_neg (show ¬inRect b x y from
          fun h => hyin ⟨h.2.2.1, h.2.2.2⟩)]
    · simp only [if_neg hxin, ite_self]
      rw [if_neg (show ¬inRect b x y from fun h => hxin ⟨h.1, h.2.1⟩)]
      simp
  refine ⟨hcount, ?_, ?_⟩
  · apply createChunks_pairwise_aux
    intro x y
    rw [hcount x y]
    split_ifs <;> omega
  · intro hWX hWY c hc
    obtain ⟨-, hmulX, hgeX⟩ := tdiv_facts (b.maxX - b.minX) nX hxw hnX
    obtain ⟨-, hmulY, hgeY⟩ := tdiv_facts (b.maxY - b.minY) nY hyw hnY
    have h1X : 1 ≤ (b.maxX - b.minX).tdiv nX :=
      hgeX (by simpa [Rectangle.dx] using hWX)
    have h1Y : 1 ≤ (b.maxY - b.minY).tdiv nY :=
      hgeY (by simpa [Rectangle.dy] using hWY)
    rw [createChunks_eq] at hc
    rcases List.mem_flatMap.mp hc with ⟨i, hi, hcm⟩
    rcases List.mem_map.mp hcm with ⟨j, hj, rfl⟩
    rw [List.mem_range] at hi hj
    constructor
    · show b.minX + (j : ℤ) * ((b.maxX - b.minX).tdiv nX) <
        if (j : ℤ) = nX - 1 then b.maxX
          else b.minX + (j : ℤ) * ((b.maxX - b.minX).tdiv nX) +
            (b.maxX - b.minX).tdiv nX
      by_cases he : (j : ℤ) = nX - 1
      · rw [if_pos he, he]
        have hexp : (nX - 1) * ((b.maxX - b.minX).tdiv nX) =
            nX * ((b.maxX - b.minX).tdiv nX) - (b.maxX - b.minX).tdiv nX := by
          ring
        linarith
      · rw [if_neg he]
        linarith
    · show b.minY + (i : ℤ) * ((b.maxY - b.minY).tdiv nY) <
        if (i : ℤ) = nY - 1 then b.maxY
          else b.minY + (i : ℤ) * ((b.maxY - b.minY).tdiv nY) +
            (b.maxY - b.minY).tdiv nY
      by_cases he : (i : ℤ) = nY - 1
      · rw [if_pos he, he]
        have hexp : (nY - 1) * ((b.maxY - b.minY).tdiv nY) =
            nY * ((b.maxY - b.minY).tdiv nY) - (b.maxY - b.minY).tdiv nY := by
          ring
        linarith
      · rw [if_neg he]
        linarith

/-- Witness for C1 on 64x32 bounds with a 2x2 grid, tested at pixel (5, 7)
and at the first chunk. -/
theorem createChunks_tiling_witness :
    (0 < (⟨0, 0, 64, 32⟩ : Rectangle).dx ∧ 0 < (⟨0, 0, 64, 32⟩ : Rectangle).dy ∧
      (1 : ℤ) ≤ 2 ∧ (1 : ℤ) ≤ 2) ∧
    ((createChunks ⟨0, 0, 64, 32⟩ 2 2).countP (fun c => decide (inChunk c 5 7)) =
      if inRect ⟨0, 0, 64, 32⟩ 5 7 then 1 else 0) ∧
    ((⟨0, 32, 0, 16⟩ : Chunk).startX < (⟨0, 32, 0, 16⟩ : Chunk).endX ∧
      (⟨0, 32, 0, 16⟩ : Chunk).startY < (⟨0, 32, 0, 16⟩ : Chunk).endY) :=
  have h := createChunks_tiling ⟨0, 0, 64, 32⟩ 2 2 (by decide) (by decide)
    (by decide) (by decide)
  ⟨⟨by decide, by decide, by decide, by decide⟩, h.1 5 7,
    h.2.2 (by decide) (by decide) ⟨0, 32, 0, 16⟩ (by decide)⟩

end ImageDiff
